import Mathlib

/-!
Verification development for the colour-symmetry machinery of
`src/pyhanabi/equiv_proj.py` and `src/pyhanabi/net.py`.

The observation/action encodings are flat rational vectors; a permutation
operator is a square 0/1 matrix whose row `d` is the standard basis vector at
the column the source's slice assignments select for destination `d`.  We
embed every operator through its destination-to-source index map (a function
`ℕ → ℕ`): the statement `perm[a:b] = perm[L]` on `torch.eye` makes row `d`
(for `a ≤ d < b`) the basis vector at `L[d-a]`, so the whole builder is the
index map written out field by field below, and the matrix is
`matrixOfRemap` of that map.

Colour permutations are `Equiv.Perm (Fin 5)`; a source tuple `symm` with
`symm[i] = σ(i)` is the permutation `σ`.  Multiplication `σ * τ` is the usual
composition `(σ * τ) x = σ (τ x)`.
-/

open Equiv (Perm)

/-- Coerce a natural number to a colour index.  Every use site passes an
argument that is already `< 5`, where this is the identity embedding. -/
def toF5 (n : ℕ) : Fin 5 := ⟨n % 5, Nat.mod_lt n (by norm_num)⟩

/-- Destination-to-source map of the `card_perm` table
(equiv_proj.py lines 24-28, net.py lines 473-477).  The loop writes
`card_perm[5*σ(i)+j] = 5*i+j` for `i, j < 5`, so looking up destination `d`
yields `5*σ⁻¹(d/5) + d%5`. -/
def cardPerm (σ : Perm (Fin 5)) (d : ℕ) : ℕ :=
  5 * ((σ⁻¹ (toF5 (d / 5))).val) + d % 5

/-- Destination-to-source map of the `discards_perm` table relative to the
offset 203 (equiv_proj.py lines 41-45, net.py lines 490-494).  The loop writes
`discards_perm[10*σ(i)+j] = 203 + 10*i + j`, so relative destination `d`
reads relative source `10*σ⁻¹(d/10) + d%10`. -/
def discardsPerm (σ : Perm (Fin 5)) (d : ℕ) : ℕ :=
  10 * ((σ⁻¹ (toF5 (d / 10))).val) + d % 10

/-- Destination-to-source map of a 5-wide single-colour one-hot block relative
to its offset: `perm[f:f+5] = perm[f + symm]` makes relative destination `d`
read relative source `σ(d)` (equiv_proj.py lines 50-51, net.py 499-500). -/
def singleColour (σ : Perm (Fin 5)) (d : ℕ) : ℕ :=
  (σ (toF5 d)).val

/-- Destination-to-source map of one V0 belief region, relative to offset 308
(equiv_proj.py lines 55-58, net.py lines 504-507): ten 35-wide blocks, each
holding a 25-wide colour-major card block, then a 5-wide single-colour block,
then 5 untouched entries.  The parameter `α` drives the colour-major part and
`β` the single-colour part; the source instantiates both with the same
permutation. -/
def v0Remap (α β : Perm (Fin 5)) (r : ℕ) : ℕ :=
  if r % 35 < 25 then 35 * (r / 35) + cardPerm α (r % 35)
  else if r % 35 < 30 then 35 * (r / 35) + 25 + singleColour β (r % 35 - 25)
  else r

/-- Width of the private observation encoding: 713 with the auxiliary
greedy-action fields (`sad`), otherwise 658 (equiv_proj.py lines 10-13). -/
def inDim (sad : Bool) : ℕ := if sad then 713 else 658

/-- Destination-to-source index map of the whole input permutation operator,
written field by field exactly as the builder's slice assignments
(equiv_proj.py lines 16-64, net.py lines 468-513).  Each slice reads rows that
earlier assignments have not touched, so the final row `d` is the identity row
at the index recorded here.  The colour-major fields (partner hand, fireworks,
discards, last-action card, V0 card blocks, greedy-action card block) use `α`;
the single-colour one-hot fields (which-colour hinted, V0 directly-revealed
colour, greedy-action which-colour) use `β`.  The source always uses one
permutation for both roles, recovered by `inputRemap` below; keeping the two
roles separate lets the lemmas track how they compose in opposite orders. -/
def inputRemapM (sad : Bool) (α β : Perm (Fin 5)) (d : ℕ) : ℕ :=
  if d < 125 then 25 * (d / 25) + cardPerm α (d % 25)
  else if d < 167 then d
  else if d < 192 then 167 + cardPerm α (d - 167)
  else if d < 203 then d
  else if d < 253 then 203 + discardsPerm α (d - 203)
  else if d < 261 then d
  else if d < 266 then 261 + singleColour β (d - 261)
  else if d < 281 then d
  else if d < 306 then 281 + cardPerm α (d - 281)
  else if d < 308 then d
  else if d < 658 then 308 + v0Remap α β (d - 308)
  else if sad then
    if d < 666 then d
    else if d < 671 then 666 + singleColour β (d - 666)
    else if d < 686 then d
    else if d < 711 then 686 + cardPerm α (d - 686)
    else d
  else d

/-- The input operator's index map for one colour permutation, exactly as the
source builds it (both roles instantiated with the same permutation). -/
def inputRemap (sad : Bool) (σ : Perm (Fin 5)) (d : ℕ) : ℕ :=
  inputRemapM sad σ σ d

/-- Destination-to-source index map of the 21-wide output operator
(equiv_proj.py lines 69-73, net.py lines 518-522): entries 10..14 are the
hint-colour block, permuted as a single-colour one-hot field; the rest is
identity. -/
def outRemap (σ : Perm (Fin 5)) (d : ℕ) : ℕ :=
  if 10 ≤ d ∧ d < 15 then 10 + singleColour σ (d - 10) else d

/-- The 0/1 matrix whose row `d` is the standard basis vector at column
`ρ d`: the matrix the source's row-gather assignments produce from
`torch.eye` when `ρ` records destination-to-source indices. -/
def matrixOfRemap (n : ℕ) (ρ : ℕ → ℕ) : Matrix (Fin n) (Fin n) ℚ :=
  Matrix.of fun d s => if ρ d.val = s.val then 1 else 0

/-- Input permutation operator with the two field roles separated (used only
by lemmas; the source's operator is the diagonal `inputPerm`). -/
def inputPermM (sad : Bool) (α β : Perm (Fin 5)) :
    Matrix (Fin (inDim sad)) (Fin (inDim sad)) ℚ :=
  matrixOfRemap (inDim sad) (inputRemapM sad α β)

/-- The input permutation operator the builder produces for one colour
permutation (equiv_proj.py lines 17-66, net.py lines 469-516). -/
def inputPerm (sad : Bool) (σ : Perm (Fin 5)) :
    Matrix (Fin (inDim sad)) (Fin (inDim sad)) ℚ :=
  matrixOfRemap (inDim sad) (inputRemap sad σ)

/-- The 21×21 output permutation operator built for one colour permutation
(equiv_proj.py lines 69-73, net.py lines 518-522). -/
def outputPerm (σ : Perm (Fin 5)) : Matrix (Fin 21) (Fin 21) ℚ :=
  matrixOfRemap 21 (outRemap σ)

/-- Generator of the cyclic enumeration: the source tuple `[4,0,1,2,3]`
(net.py line 450), i.e. the colour map `i ↦ i + 4 = i - 1 (mod 5)`. -/
def c1 : Perm (Fin 5) :=
  ⟨fun i => i + 4, fun i => i + 1, by decide, by decide⟩

/-- The k-th element of the cyclic enumeration; `cyc 0` is the identity. -/
def cyc (k : Fin 5) : Perm (Fin 5) := c1 ^ (k : ℕ)

/-- The cyclic group-type enumeration of net.py line 450:
`[[0,1,2,3,4],[4,0,1,2,3],[3,4,0,1,2],[2,3,4,0,1],[1,2,3,4,0]]`, which is
`[c1^0, c1^1, c1^2, c1^3, c1^4]`. -/
def cyclicSymmetries : List (Perm (Fin 5)) :=
  (List.range 5).map fun k => c1 ^ k

/-- Rotation `i ↦ i + k` of the dihedral enumeration (net.py lines 452-456). -/
def rot (k : Fin 5) : Perm (Fin 5) :=
  ⟨fun i => i + k, fun i => i - k, fun i => by simp, fun i => by simp⟩

/-- Reflection `i ↦ k - i` of the dihedral enumeration (net.py lines 457-461). -/
def refl5 (k : Fin 5) : Perm (Fin 5) :=
  ⟨fun i => k - i, fun i => k - i, fun i => by simp, fun i => by simp⟩

/-- The dihedral group-type enumeration of net.py lines 452-461: five
rotations `i ↦ i + k` then the reflections `0-i, 4-i, 3-i, 2-i, 1-i`. -/
def dihedralSymmetries : List (Perm (Fin 5)) :=
  [rot 0, rot 1, rot 2, rot 3, rot 4, refl5 0, refl5 4, refl5 3, refl5 2, refl5 1]

/-- The symmetric group-type enumeration, `list(permutations([0,1,2,3,4]))`
(net.py line 463, equiv_proj.py line 8 together with the implicit identity):
all 120 colour permutations.  The source lists them in lexicographic tuple
order; only their set matters here, so we take a canonical duplicate-free
listing of all permutations of the five colours. -/
def symmetricSymmetries : List (Perm (Fin 5)) :=
  permsOfList (List.finRange 5)

/-- The string the `group_type` attribute is hardcoded to (net.py 447, 693). -/
def groupTypeCyclic : String := "cyclic"

/-- The string checked by the dihedral branch (net.py 451, 697). -/
def groupTypeDihedral : String := "dihedral"

/-- Group-table selection of net.py lines 449-463 (and 695-709): the if/elif
chain on `group_type`; every value other than the two recognised strings falls
through to the symmetric enumeration.  The source has no error path. -/
def selectSymmetries (group_type : String) : List (Perm (Fin 5)) :=
  if group_type = groupTypeCyclic then cyclicSymmetries
  else if group_type = groupTypeDihedral then dihedralSymmetries
  else symmetricSymmetries

/-- A group-type string that is none of cyclic/dihedral/symmetric. -/
def badGroupType : String := "quaternion"

/-- Number of group elements averaged over by `EquivariantProjection`
(equiv_proj.py line 9): the identity plus the 119 non-identity permutations,
i.e. all 120 elements of the symmetric group. -/
def numSymmetries : ℕ := Fintype.card (Perm (Fin 5))

/-- `EquivariantProjection.project` on the input weight (equiv_proj.py lines
82-83): `matmul(input_weight, input_perms)` stacks `W·P_σ` for the identity
and each enumerated permutation; reshaping and summing over the group axis
then dividing by `num_symmetries` is the group average. -/
def project_inputWeight (sad : Bool) (h1 : ℕ)
    (Wi : Matrix (Fin h1) (Fin (inDim sad)) ℚ) :
    Matrix (Fin h1) (Fin (inDim sad)) ℚ :=
  ((numSymmetries : ℚ))⁻¹ • ∑ σ : Perm (Fin 5), Wi * inputPerm sad σ

/-- `EquivariantProjection.project` on the output weight (equiv_proj.py lines
85-86): the group average of `Q_σ · W_out` over the same enumeration. -/
def project_outputWeight (h2 : ℕ) (Wo : Matrix (Fin 21) (Fin h2) ℚ) :
    Matrix (Fin 21) (Fin h2) ℚ :=
  ((numSymmetries : ℚ))⁻¹ • ∑ σ : Perm (Fin 5), outputPerm σ * Wo

/-- `EquivariantProjection.project` on the output bias (equiv_proj.py lines
88-89): the group average of `Q_σ · b`. -/
def project_outputBias (b : Fin 21 → ℚ) : Fin 21 → ℚ :=
  ((numSymmetries : ℚ))⁻¹ • ∑ σ : Perm (Fin 5), (outputPerm σ).mulVec b

/-- One batch sample of `EquivariantLSTMNet.act` (net.py lines 535-568).
`priv_s @ input_perms` makes expanded copy `k` equal to `P_{σ_k}·x` (the
stored block is the transpose of the builder's matrix, and `x Pᵀ = P x`);
the hidden state is tiled unchanged across copies (`hidden_cell_repeat`), the
shared body `F` (ff layer, LSTM step, `fc_a`) runs per copy, copy `k`'s
advantage is right-multiplied by `output_perms[k]`, the operator built for the
inverse permutation `σ_k⁻¹` (net.py lines 517-522), and the copies are
averaged.  `F` abstracts the trained body; every tensor operation between the
expansion and the correction acts per expanded sample, so a single sample with
an arbitrary body is the general case. -/
def equivAct (sad : Bool) {H : Type} (F : (Fin (inDim sad) → ℚ) → H → Fin 21 → ℚ)
    (x : Fin (inDim sad) → ℚ) (h : H) : Fin 21 → ℚ :=
  ((5 : ℚ))⁻¹ •
    ∑ k : Fin 5,
      Matrix.vecMul (F ((inputPerm sad (cyc k)).mulVec x) h) (outputPerm (cyc k)⁻¹)

/-- `tensor.mean(dim)` over a full axis: sum divided by the axis length. -/
def torchMean {n : ℕ} (f : Fin n → ℚ) : ℚ := (∑ j, f j) / (n : ℚ)

/-- `duel` (net.py lines 16-22): `q = v + a*legal_move - mean_2(a*legal_move)`
with `v` broadcast from shape `[seq, batch, 1]`.  The shape asserts of lines
18-19 are carried by the index types. -/
def duel {S B A : ℕ} (v : Fin S → Fin B → ℚ)
    (a legal_move : Fin S → Fin B → Fin A → ℚ) : Fin S → Fin B → Fin A → ℚ :=
  fun s b i =>
    v s b + a s b i * legal_move s b i -
      torchMean (fun j => a s b j * legal_move s b j)

/-- Dueling combination as the claim's words describe it: the subtracted mean
counts only the legal actions in its denominator.  This definition follows the
spec text and exists solely to be compared with `duel`. -/
def duelSpecLegalMean {S B A : ℕ} (v : Fin S → Fin B → ℚ)
    (a legal_move : Fin S → Fin B → Fin A → ℚ) : Fin S → Fin B → Fin A → ℚ :=
  fun s b i =>
    v s b + a s b i * legal_move s b i -
      (∑ j, a s b j * legal_move s b j) /
        ((Finset.univ.filter fun j => legal_move s b j ≠ 0).card : ℚ)

/-- Global minimum `q.min()` of a `[seq, batch, action]` tensor
(net.py line 116: the shift uses the minimum over all three axes). -/
def tensorMin {S B A : ℕ} (q : Fin (S + 1) → Fin (B + 1) → Fin (A + 1) → ℚ) : ℚ :=
  Finset.min'
    (Finset.image (fun p : Fin (S + 1) × Fin (B + 1) × Fin (A + 1) => q p.1 p.2.1 p.2.2)
      Finset.univ)
    (Finset.Nonempty.image Finset.univ_nonempty _)

/-- The masked shifted values `legal_q = (1 + q - q.min()) * legal_move`
(net.py lines 116, 243, 392, 628, 892). -/
def legalQ {S B A : ℕ} (q legal_move : Fin (S + 1) → Fin (B + 1) → Fin (A + 1) → ℚ) :
    Fin (S + 1) → Fin (B + 1) → Fin (A + 1) → ℚ :=
  fun s b i => (1 + q s b i - tensorMin q) * legal_move s b i

/-- `argmax` over the action axis: an index attaining the maximum (torch
returns one maximising index; which tie is taken is irrelevant to the claims
proved about it). -/
def argmaxIdx {n : ℕ} (f : Fin (n + 1) → ℚ) : Fin (n + 1) :=
  (List.argmax f (List.finRange (n + 1))).getD 0

/-- `greedy_action = legal_q.argmax(-1)` (net.py lines 118, 245, 394, 630, 894). -/
def greedyAction {S B A : ℕ}
    (q legal_move : Fin (S + 1) → Fin (B + 1) → Fin (A + 1) → ℚ) :
    Fin (S + 1) → Fin (B + 1) → Fin (A + 1) :=
  fun s b => argmaxIdx (fun i => legalQ q legal_move s b i)

/-- `clamp(min=eps)` from below. -/
def clampMin (x eps : ℚ) : ℚ := max x eps

/-- The per-(sample, step, player) slot-masked loss of `cross_entropy`
(net.py lines 31-32): `-(plogq * hand_slot_mask).sum(-1)` divided by
`hand_slot_mask.sum(-1).clamp(min=1e-6)`, where `plogq = (target_p * logq).sum(-1)`.
`logq` stands for the log-softmax output, which is finite for finite logits;
the claim concerns only the masked sum and the clamped denominator. -/
def cross_entropy_xent (target_p logq : Fin 5 → Fin 3 → ℚ) (hand_slot_mask : Fin 5 → ℚ) : ℚ :=
  -(∑ s : Fin 5, (∑ r : Fin 3, target_p s r * logq s r) * hand_slot_mask s) /
    clampMin (∑ s : Fin 5, hand_slot_mask s) (1 / 1000000)

/-- Validity of the hardcoded reshape in the batched equivariant forward
(net.py line 608 and lines 870-871): the matmul output has shape
`[seq, batch, 5*dIn]` and is reshaped to `(80, batch*5, dIn)`, which torch
accepts exactly when the element counts agree. -/
def forwardReshapeValid (seq batchsize dIn : ℕ) : Prop :=
  seq * (batchsize * (5 * dIn)) = 80 * ((batchsize * 5) * dIn)

/-- Validity of the corresponding reshape on the single-step `act` path
(net.py line 556 and lines 815-816): `[batch, 5*dIn]` reshaped to
`(batch*5, dIn)`. -/
def actReshapeValid (batchsize dIn : ℕ) : Prop :=
  batchsize * (5 * dIn) = (batchsize * 5) * dIn

/-- Shape after a linear layer: the last dimension becomes the output width. -/
def linearOutShape (features : ℕ) (shape : List ℕ) : List ℕ :=
  shape.dropLast ++ [features]

/-- The two asserts at the top of `duel` (net.py lines 18-19):
`a.size() == legal_move.size()` and `legal_move.dim() == 3`. -/
def duelShapeOk (aShape legalShape : List ℕ) : Prop :=
  aShape = legalShape ∧ legalShape.length = 3

/-- Shape-level run of `FFWDNet.forward` (net.py lines 93-118): the entry
assert admits rank 3 or rank 2; `net` applies three linear layers (hidden
width) and `fc_a` one more (output width) to `priv_s`, and `duel` is called on
the result and `legal_move` with no unsqueeze in between.  The proposition
holds exactly when every assert on the path to `q` passes. -/
def ffwdForwardRuns (hidDim outDim : ℕ) (privShape legalShape : List ℕ) : Prop :=
  (privShape.length = 3 ∨ privShape.length = 2) ∧
    duelShapeOk
      (linearOutShape outDim
        (linearOutShape hidDim (linearOutShape hidDim (linearOutShape hidDim privShape))))
      legalShape

/-! ## Basic facts about the per-field index maps -/

theorem toF5_val (x : Fin 5) : toF5 x.val = x := by
  apply Fin.ext
  simp [toF5, Nat.mod_eq_of_lt x.isLt]

theorem cardPerm_lt (σ : Perm (Fin 5)) (d : ℕ) : cardPerm σ d < 25 := by
  have h := (σ⁻¹ (toF5 (d / 5))).isLt
  unfold cardPerm
  omega

theorem discardsPerm_lt (σ : Perm (Fin 5)) (d : ℕ) : discardsPerm σ d < 50 := by
  have h := (σ⁻¹ (toF5 (d / 10))).isLt
  unfold discardsPerm
  omega

theorem singleColour_lt (σ : Perm (Fin 5)) (d : ℕ) : singleColour σ d < 5 := by
  exact (σ (toF5 d)).isLt

theorem cardPerm_comp (α γ : Perm (Fin 5)) (d : ℕ) :
    cardPerm γ (cardPerm α d) = cardPerm (α * γ) d := by
  unfold cardPerm
  have hlt := (α⁻¹ (toF5 (d / 5))).isLt
  have e1 : (5 * (α⁻¹ (toF5 (d / 5))).val + d % 5) / 5 = (α⁻¹ (toF5 (d / 5))).val := by omega
  have e2 : (5 * (α⁻¹ (toF5 (d / 5))).val + d % 5) % 5 = d % 5 := by omega
  rw [e1, e2, toF5_val, mul_inv_rev, Equiv.Perm.mul_apply]

theorem discardsPerm_comp (α γ : Perm (Fin 5)) (d : ℕ) :
    discardsPerm γ (discardsPerm α d) = discardsPerm (α * γ) d := by
  unfold discardsPerm
  have hlt := (α⁻¹ (toF5 (d / 10))).isLt
  have e1 : (10 * (α⁻¹ (toF5 (d / 10))).val + d % 10) / 10 = (α⁻¹ (toF5 (d / 10))).val := by
    omega
  have e2 : (10 * (α⁻¹ (toF5 (d / 10))).val + d % 10) % 10 = d % 10 := by omega
  rw [e1, e2, toF5_val, mul_inv_rev, Equiv.Perm.mul_apply]

theorem singleColour_comp (β δ : Perm (Fin 5)) (d : ℕ) :
    singleColour δ (singleColour β d) = singleColour (δ * β) d := by
  unfold singleColour
  rw [toF5_val, Equiv.Perm.mul_apply]

theorem cardPerm_one (d : ℕ) (h : d < 25) : cardPerm 1 d = d := by
  unfold cardPerm toF5
  simp only [inv_one, Equiv.Perm.one_apply]
  omega

theorem discardsPerm_one (d : ℕ) (h : d < 50) : discardsPerm 1 d = d := by
  unfold discardsPerm toF5
  simp only [inv_one, Equiv.Perm.one_apply]
  omega

theorem singleColour_one (d : ℕ) (h : d < 5) : singleColour 1 d = d := by
  unfold singleColour toF5
  simp only [Equiv.Perm.one_apply]
  omega

/-! ## The V0 region -/

theorem v0Remap_eval_card (α β : Perm (Fin 5)) (r : ℕ) (h : r % 35 < 25) :
    v0Remap α β r = 35 * (r / 35) + cardPerm α (r % 35) := by
  unfold v0Remap
  rw [if_pos h]

theorem v0Remap_eval_single (α β : Perm (Fin 5)) (r : ℕ) (h1 : 25 ≤ r % 35)
    (h2 : r % 35 < 30) : v0Remap α β r = 35 * (r / 35) + 25 + singleColour β (r % 35 - 25) := by
  unfold v0Remap
  rw [if_neg (by omega), if_pos h2]

theorem v0Remap_eval_id (α β : Perm (Fin 5)) (r : ℕ) (h : 30 ≤ r % 35) :
    v0Remap α β r = r := by
  unfold v0Remap
  rw [if_neg (by omega), if_neg (by omega)]

theorem v0Remap_lt (α β : Perm (Fin 5)) (r : ℕ) (h : r < 350) : v0Remap α β r < 350 := by
  by_cases h1 : r % 35 < 25
  · rw [v0Remap_eval_card α β r h1]
    have := cardPerm_lt α (r % 35)
    omega
  · by_cases h2 : r % 35 < 30
    · rw [v0Remap_eval_single α β r (by omega) h2]
      have := singleColour_lt β (r % 35 - 25)
      omega
    · rw [v0Remap_eval_id α β r (by omega)]
      exact h

theorem v0Remap_comp (α β γ δ : Perm (Fin 5)) (r : ℕ) :
    v0Remap γ δ (v0Remap α β r) = v0Remap (α * γ) (δ * β) r := by
  by_cases h1 : r % 35 < 25
  · rw [v0Remap_eval_card α β r h1]
    have hcp := cardPerm_lt α (r % 35)
    have e1 : (35 * (r / 35) + cardPerm α (r % 35)) % 35 = cardPerm α (r % 35) := by omega
    have e2 : (35 * (r / 35) + cardPerm α (r % 35)) / 35 = r / 35 := by omega
    rw [v0Remap_eval_card γ δ _ (by omega), v0Remap_eval_card (α * γ) (δ * β) r h1, e1, e2,
      cardPerm_comp]
  · by_cases h2 : r % 35 < 30
    · rw [v0Remap_eval_single α β r (by omega) h2]
      have hsc := singleColour_lt β (r % 35 - 25)
      have e1 : (35 * (r / 35) + 25 + singleColour β (r % 35 - 25)) % 35 =
          25 + singleColour β (r % 35 - 25) := by omega
      have e2 : (35 * (r / 35) + 25 + singleColour β (r % 35 - 25)) / 35 = r / 35 := by omega
      rw [v0Remap_eval_single γ δ _ (by omega) (by omega), v0Remap_eval_single (α * γ) (δ * β) r
        (by omega) h2, e1, e2]
      have e3 : 25 + singleColour β (r % 35 - 25) - 25 = singleColour β (r % 35 - 25) := by omega
      rw [e3, singleColour_comp]
    · rw [v0Remap_eval_id α β r (by omega), v0Remap_eval_id γ δ r (by omega),
        v0Remap_eval_id (α * γ) (δ * β) r (by omega)]

theorem v0Remap_one (r : ℕ) : v0Remap 1 1 r = r := by
  by_cases h1 : r % 35 < 25
  · rw [v0Remap_eval_card 1 1 r h1, cardPerm_one (r % 35) (by omega)]
    omega
  · by_cases h2 : r % 35 < 30
    · rw [v0Remap_eval_single 1 1 r (by omega) h2,
        singleColour_one (r % 35 - 25) (by omega)]
      omega
    · exact v0Remap_eval_id 1 1 r (by omega)

/-! ## Region evaluation of the input index map -/

theorem inputRemapM_hand (sad : Bool) (α β : Perm (Fin 5)) (d : ℕ) (h : d < 125) :
    inputRemapM sad α β d = 25 * (d / 25) + cardPerm α (d % 25) := by
  unfold inputRemapM
  rw [if_pos (by omega : d < 125)]

theorem inputRemapM_gap1 (sad : Bool) (α β : Perm (Fin 5)) (d : ℕ) (h1 : 125 ≤ d)
    (h2 : d < 167) : inputRemapM sad α β d = d := by
  unfold inputRemapM
  rw [if_neg (by omega : ¬ d < 125),
    if_pos (by omega : d < 167)]

theorem inputRemapM_fireworks (sad : Bool) (α β : Perm (Fin 5)) (d : ℕ) (h1 : 167 ≤ d)
    (h2 : d < 192) : inputRemapM sad α β d = 167 + cardPerm α (d - 167) := by
  unfold inputRemapM
  rw [if_neg (by omega : ¬ d < 125),
    if_neg (by omega : ¬ d < 167),
    if_pos (by omega : d < 192)]

theorem inputRemapM_gap2 (sad : Bool) (α β : Perm (Fin 5)) (d : ℕ) (h1 : 192 ≤ d)
    (h2 : d < 203) : inputRemapM sad α β d = d := by
  unfold inputRemapM
  rw [if_neg (by omega : ¬ d < 125),
    if_neg (by omega : ¬ d < 167),
    if_neg (by omega : ¬ d < 192),
    if_pos (by omega : d < 203)]

theorem inputRemapM_discards (sad : Bool) (α β : Perm (Fin 5)) (d : ℕ) (h1 : 203 ≤ d)
    (h2 : d < 253) : inputRemapM sad α β d = 203 + discardsPerm α (d - 203) := by
  unfold inputRemapM
  rw [if_neg (by omega : ¬ d < 125),
    if_neg (by omega : ¬ d < 167),
    if_neg (by omega : ¬ d < 192),
    if_neg (by omega : ¬ d < 203),
    if_pos (by omega : d < 253)]

theorem inputRemapM_gap3 (sad : Bool) (α β : Perm (Fin 5)) (d : ℕ) (h1 : 253 ≤ d)
    (h2 : d < 261) : inputRemapM sad α β d = d := by
  unfold inputRemapM
  rw [if_neg (by omega : ¬ d < 125),
    if_neg (by omega : ¬ d < 167),
    if_neg (by omega : ¬ d < 192),
    if_neg (by omega : ¬ d < 203),
    if_neg (by omega : ¬ d < 253),
    if_pos (by omega : d < 261)]

theorem inputRemapM_whichColour (sad : Bool) (α β : Perm (Fin 5)) (d : ℕ) (h1 : 261 ≤ d)
    (h2 : d < 266) : inputRemapM sad α β d = 261 + singleColour β (d - 261) := by
  unfold inputRemapM
  rw [if_neg (by omega : ¬ d < 125),
    if_neg (by omega : ¬ d < 167),
    if_neg (by omega : ¬ d < 192),
    if_neg (by omega : ¬ d < 203),
    if_neg (by omega : ¬ d < 253),
    if_neg (by omega : ¬ d < 261),
    if_pos (by omega : d < 266)]

theorem inputRemapM_gap4 (sad : Bool) (α β : Perm (Fin 5)) (d : ℕ) (h1 : 266 ≤ d)
    (h2 : d < 281) : inputRemapM sad α β d = d := by
  unfold inputRemapM
  rw [if_neg (by omega : ¬ d < 125),
    if_neg (by omega : ¬ d < 167),
    if_neg (by omega : ¬ d < 192),
    if_neg (by omega : ¬ d < 203),
    if_neg (by omega : ¬ d < 253),
    if_neg (by omega : ¬ d < 261),
    if_neg (by omega : ¬ d < 266),
    if_pos (by omega : d < 281)]

theorem inputRemapM_lastCard (sad : Bool) (α β : Perm (Fin 5)) (d : ℕ) (h1 : 281 ≤ d)
    (h2 : d < 306) : inputRemapM sad α β d = 281 + cardPerm α (d - 281) := by
  unfold inputRemapM
  rw [if_neg (by omega : ¬ d < 125),
    if_neg (by omega : ¬ d < 167),
    if_neg (by omega : ¬ d < 192),
    if_neg (by omega : ¬ d < 203),
    if_neg (by omega : ¬ d < 253),
    if_neg (by omega : ¬ d < 261),
    if_neg (by omega : ¬ d < 266),
    if_neg (by omega : ¬ d < 281),
    if_pos (by omega : d < 306)]

theorem inputRemapM_gap5 (sad : Bool) (α β : Perm (Fin 5)) (d : ℕ) (h1 : 306 ≤ d)
    (h2 : d < 308) : inputRemapM sad α β d = d := by
  unfold inputRemapM
  rw [if_neg (by omega : ¬ d < 125),
    if_neg (by omega : ¬ d < 167),
    if_neg (by omega : ¬ d < 192),
    if_neg (by omega : ¬ d < 203),
    if_neg (by omega : ¬ d < 253),
    if_neg (by omega : ¬ d < 261),
    if_neg (by omega : ¬ d < 266),
    if_neg (by omega : ¬ d < 281),
    if_neg (by omega : ¬ d < 306),
    if_pos (by omega : d < 308)]

theorem inputRemapM_v0 (sad : Bool) (α β : Perm (Fin 5)) (d : ℕ) (h1 : 308 ≤ d)
    (h2 : d < 658) : inputRemapM sad α β d = 308 + v0Remap α β (d - 308) := by
  unfold inputRemapM
  rw [if_neg (by omega : ¬ d < 125),
    if_neg (by omega : ¬ d < 167),
    if_neg (by omega : ¬ d < 192),
    if_neg (by omega : ¬ d < 203),
    if_neg (by omega : ¬ d < 253),
    if_neg (by omega : ¬ d < 261),
    if_neg (by omega : ¬ d < 266),
    if_neg (by omega : ¬ d < 281),
    if_neg (by omega : ¬ d < 306),
    if_neg (by omega : ¬ d < 308),
    if_pos (by omega : d < 658)]

theorem inputRemapM_tail_nonsad (α β : Perm (Fin 5)) (d : ℕ) (h : 658 ≤ d) :
    inputRemapM false α β d = d := by
  unfold inputRemapM
  rw [if_neg (by omega : ¬ d < 125),
    if_neg (by omega : ¬ d < 167),
    if_neg (by omega : ¬ d < 192),
    if_neg (by omega : ¬ d < 203),
    if_neg (by omega : ¬ d < 253),
    if_neg (by omega : ¬ d < 261),
    if_neg (by omega : ¬ d < 266),
    if_neg (by omega : ¬ d < 281),
    if_neg (by omega : ¬ d < 306),
    if_neg (by omega : ¬ d < 308),
    if_neg (by omega : ¬ d < 658)]
  simp

theorem inputRemapM_gap6 (α β : Perm (Fin 5)) (d : ℕ) (h1 : 658 ≤ d) (h2 : d < 666) :
    inputRemapM true α β d = d := by
  unfold inputRemapM
  rw [if_neg (by omega : ¬ d < 125),
    if_neg (by omega : ¬ d < 167),
    if_neg (by omega : ¬ d < 192),
    if_neg (by omega : ¬ d < 203),
    if_neg (by omega : ¬ d < 253),
    if_neg (by omega : ¬ d < 261),
    if_neg (by omega : ¬ d < 266),
    if_neg (by omega : ¬ d < 281),
    if_neg (by omega : ¬ d < 306),
    if_neg (by omega : ¬ d < 308),
    if_neg (by omega : ¬ d < 658)]
  simp only [if_true]
  rw [if_pos (by omega : d < 666)]

theorem inputRemapM_sadColour (α β : Perm (Fin 5)) (d : ℕ) (h1 : 666 ≤ d) (h2 : d < 671) :
    inputRemapM true α β d = 666 + singleColour β (d - 666) := by
  unfold inputRemapM
  rw [if_neg (by omega : ¬ d < 125),
    if_neg (by omega : ¬ d < 167),
    if_neg (by omega : ¬ d < 192),
    if_neg (by omega : ¬ d < 203),
    if_neg (by omega : ¬ d < 253),
    if_neg (by omega : ¬ d < 261),
    if_neg (by omega : ¬ d < 266),
    if_neg (by omega : ¬ d < 281),
    if_neg (by omega : ¬ d < 306),
    if_neg (by omega : ¬ d < 308),
    if_neg (by omega : ¬ d < 658)]
  simp only [if_true]
  rw [if_neg (by omega : ¬ d < 666),
    if_pos (by omega : d < 671)]

theorem inputRemapM_gap7 (α β : Perm (Fin 5)) (d : ℕ) (h1 : 671 ≤ d) (h2 : d < 686) :
    inputRemapM true α β d = d := by
  unfold inputRemapM
  rw [if_neg (by omega : ¬ d < 125),
    if_neg (by omega : ¬ d < 167),
    if_neg (by omega : ¬ d < 192),
    if_neg (by omega : ¬ d < 203),
    if_neg (by omega : ¬ d < 253),
    if_neg (by omega : ¬ d < 261),
    if_neg (by omega : ¬ d < 266),
    if_neg (by omega : ¬ d < 281),
    if_neg (by omega : ¬ d < 306),
    if_neg (by omega : ¬ d < 308),
    if_neg (by omega : ¬ d < 658)]
  simp only [if_true]
  rw [if_neg (by omega : ¬ d < 666),
    if_neg (by omega : ¬ d < 671),
    if_pos (by omega : d < 686)]

theorem inputRemapM_sadCard (α β : Perm (Fin 5)) (d : ℕ) (h1 : 686 ≤ d) (h2 : d < 711) :
    inputRemapM true α β d = 686 + cardPerm α (d - 686) := by
  unfold inputRemapM
  rw [if_neg (by omega : ¬ d < 125),
    if_neg (by omega : ¬ d < 167),
    if_neg (by omega : ¬ d < 192),
    if_neg (by omega : ¬ d < 203),
    if_neg (by omega : ¬ d < 253),
    if_neg (by omega : ¬ d < 261),
    if_neg (by omega : ¬ d < 266),
    if_neg (by omega : ¬ d < 281),
    if_neg (by omega : ¬ d < 306),
    if_neg (by omega : ¬ d < 308),
    if_neg (by omega : ¬ d < 658)]
  simp only [if_true]
  rw [if_neg (by omega : ¬ d < 666),
    if_neg (by omega : ¬ d < 671),
    if_neg (by omega : ¬ d < 686),
    if_pos (by omega : d < 711)]

theorem inputRemapM_gap8 (α β : Perm (Fin 5)) (d : ℕ) (h1 : 711 ≤ d) :
    inputRemapM true α β d = d := by
  unfold inputRemapM
  rw [if_neg (by omega : ¬ d < 125),
    if_neg (by omega : ¬ d < 167),
    if_neg (by omega : ¬ d < 192),
    if_neg (by omega : ¬ d < 203),
    if_neg (by omega : ¬ d < 253),
    if_neg (by omega : ¬ d < 261),
    if_neg (by omega : ¬ d < 266),
    if_neg (by omega : ¬ d < 281),
    if_neg (by omega : ¬ d < 306),
    if_neg (by omega : ¬ d < 308),
    if_neg (by omega : ¬ d < 658)]
  simp only [if_true]
  rw [if_neg (by omega : ¬ d < 666),
    if_neg (by omega : ¬ d < 671),
    if_neg (by omega : ¬ d < 686),
    if_neg (by omega : ¬ d < 711)]
/-! ## Composition, identity, bound and field-role casing of the input map -/

theorem inputRemapM_comp (sad : Bool) (α β γ δ : Perm (Fin 5)) (d : ℕ) :
    inputRemapM sad γ δ (inputRemapM sad α β d) = inputRemapM sad (α * γ) (δ * β) d := by
  by_cases h1 : d < 125
  · have hcp := cardPerm_lt α (d % 25)
    rw [inputRemapM_hand sad α β d h1, inputRemapM_hand sad γ δ _ (by omega),
      inputRemapM_hand sad (α * γ) (δ * β) d h1]
    have e1 : (25 * (d / 25) + cardPerm α (d % 25)) / 25 = d / 25 := by omega
    have e2 : (25 * (d / 25) + cardPerm α (d % 25)) % 25 = cardPerm α (d % 25) := by omega
    rw [e1, e2, cardPerm_comp]
  by_cases h2 : d < 167
  · rw [inputRemapM_gap1 sad α β d (by omega) h2, inputRemapM_gap1 sad γ δ d (by omega) h2,
      inputRemapM_gap1 sad (α * γ) (δ * β) d (by omega) h2]
  by_cases h3 : d < 192
  · have hcp := cardPerm_lt α (d - 167)
    rw [inputRemapM_fireworks sad α β d (by omega) h3,
      inputRemapM_fireworks sad γ δ _ (by omega) (by omega),
      inputRemapM_fireworks sad (α * γ) (δ * β) d (by omega) h3,
      Nat.add_sub_cancel_left, cardPerm_comp]
  by_cases h4 : d < 203
  · rw [inputRemapM_gap2 sad α β d (by omega) h4, inputRemapM_gap2 sad γ δ d (by omega) h4,
      inputRemapM_gap2 sad (α * γ) (δ * β) d (by omega) h4]
  by_cases h5 : d < 253
  · have hdp := discardsPerm_lt α (d - 203)
    rw [inputRemapM_discards sad α β d (by omega) h5,
      inputRemapM_discards sad γ δ _ (by omega) (by omega),
      inputRemapM_discards sad (α * γ) (δ * β) d (by omega) h5,
      Nat.add_sub_cancel_left, discardsPerm_comp]
  by_cases h6 : d < 261
  · rw [inputRemapM_gap3 sad α β d (by omega) h6, inputRemapM_gap3 sad γ δ d (by omega) h6,
      inputRemapM_gap3 sad (α * γ) (δ * β) d (by omega) h6]
  by_cases h7 : d < 266
  · have hsc := singleColour_lt β (d - 261)
    rw [inputRemapM_whichColour sad α β d (by omega) h7,
      inputRemapM_whichColour sad γ δ _ (by omega) (by omega),
      inputRemapM_whichColour sad (α * γ) (δ * β) d (by omega) h7,
      Nat.add_sub_cancel_left, singleColour_comp]
  by_cases h8 : d < 281
  · rw [inputRemapM_gap4 sad α β d (by omega) h8, inputRemapM_gap4 sad γ δ d (by omega) h8,
      inputRemapM_gap4 sad (α * γ) (δ * β) d (by omega) h8]
  by_cases h9 : d < 306
  · have hcp := cardPerm_lt α (d - 281)
    rw [inputRemapM_lastCard sad α β d (by omega) h9,
      inputRemapM_lastCard sad γ δ _ (by omega) (by omega),
      inputRemapM_lastCard sad (α * γ) (δ * β) d (by omega) h9,
      Nat.add_sub_cancel_left, cardPerm_comp]
  by_cases h10 : d < 308
  · rw [inputRemapM_gap5 sad α β d (by omega) h10, inputRemapM_gap5 sad γ δ d (by omega) h10,
      inputRemapM_gap5 sad (α * γ) (δ * β) d (by omega) h10]
  by_cases h11 : d < 658
  · have hv := v0Remap_lt α β (d - 308) (by omega)
    rw [inputRemapM_v0 sad α β d (by omega) h11,
      inputRemapM_v0 sad γ δ _ (by omega) (by omega),
      inputRemapM_v0 sad (α * γ) (δ * β) d (by omega) h11,
      Nat.add_sub_cancel_left, v0Remap_comp]
  cases sad with
  | false =>
    rw [inputRemapM_tail_nonsad α β d (by omega), inputRemapM_tail_nonsad γ δ d (by omega),
      inputRemapM_tail_nonsad (α * γ) (δ * β) d (by omega)]
  | true =>
    by_cases h12 : d < 666
    · rw [inputRemapM_gap6 α β d (by omega) h12, inputRemapM_gap6 γ δ d (by omega) h12,
        inputRemapM_gap6 (α * γ) (δ * β) d (by omega) h12]
    by_cases h13 : d < 671
    · have hsc := singleColour_lt β (d - 666)
      rw [inputRemapM_sadColour α β d (by omega) h13,
        inputRemapM_sadColour γ δ _ (by omega) (by omega),
        inputRemapM_sadColour (α * γ) (δ * β) d (by omega) h13,
        Nat.add_sub_cancel_left, singleColour_comp]
    by_cases h14 : d < 686
    · rw [inputRemapM_gap7 α β d (by omega) h14, inputRemapM_gap7 γ δ d (by omega) h14,
        inputRemapM_gap7 (α * γ) (δ * β) d (by omega) h14]
    by_cases h15 : d < 711
    · have hcp := cardPerm_lt α (d - 686)
      rw [inputRemapM_sadCard α β d (by omega) h15,
        inputRemapM_sadCard γ δ _ (by omega) (by omega),
        inputRemapM_sadCard (α * γ) (δ * β) d (by omega) h15,
        Nat.add_sub_cancel_left, cardPerm_comp]
    rw [inputRemapM_gap8 α β d (by omega), inputRemapM_gap8 γ δ d (by omega),
      inputRemapM_gap8 (α * γ) (δ * β) d (by omega)]

theorem inputRemapM_one (sad : Bool) (d : ℕ) : inputRemapM sad 1 1 d = d := by
  by_cases h1 : d < 125
  · rw [inputRemapM_hand sad 1 1 d h1, cardPerm_one (d % 25) (by omega)]
    omega
  by_cases h2 : d < 167
  · exact inputRemapM_gap1 sad 1 1 d (by omega) h2
  by_cases h3 : d < 192
  · rw [inputRemapM_fireworks sad 1 1 d (by omega) h3, cardPerm_one (d - 167) (by omega)]
    omega
  by_cases h4 : d < 203
  · exact inputRemapM_gap2 sad 1 1 d (by omega) h4
  by_cases h5 : d < 253
  · rw [inputRemapM_discards sad 1 1 d (by omega) h5, discardsPerm_one (d - 203) (by omega)]
    omega
  by_cases h6 : d < 261
  · exact inputRemapM_gap3 sad 1 1 d (by omega) h6
  by_cases h7 : d < 266
  · rw [inputRemapM_whichColour sad 1 1 d (by omega) h7, singleColour_one (d - 261) (by omega)]
    omega
  by_cases h8 : d < 281
  · exact inputRemapM_gap4 sad 1 1 d (by omega) h8
  by_cases h9 : d < 306
  · rw [inputRemapM_lastCard sad 1 1 d (by omega) h9, cardPerm_one (d - 281) (by omega)]
    omega
  by_cases h10 : d < 308
  · exact inputRemapM_gap5 sad 1 1 d (by omega) h10
  by_cases h11 : d < 658
  · rw [inputRemapM_v0 sad 1 1 d (by omega) h11, v0Remap_one (d - 308)]
    omega
  cases sad with
  | false => exact inputRemapM_tail_nonsad 1 1 d (by omega)
  | true =>
    by_cases h12 : d < 666
    · exact inputRemapM_gap6 1 1 d (by omega) h12
    by_cases h13 : d < 671
    · rw [inputRemapM_sadColour 1 1 d (by omega) h13, singleColour_one (d - 666) (by omega)]
      omega
    by_cases h14 : d < 686
    · exact inputRemapM_gap7 1 1 d (by omega) h14
    by_cases h15 : d < 711
    · rw [inputRemapM_sadCard 1 1 d (by omega) h15, cardPerm_one (d - 686) (by omega)]
      omega
    exact inputRemapM_gap8 1 1 d (by omega)

theorem inputRemapM_lt (sad : Bool) (α β : Perm (Fin 5)) (d : ℕ) (h : d < inDim sad) :
    inputRemapM sad α β d < inDim sad := by
  have hdim : 658 ≤ inDim sad := by cases sad <;> simp [inDim]
  by_cases h1 : d < 125
  · rw [inputRemapM_hand sad α β d h1]
    have := cardPerm_lt α (d % 25)
    omega
  by_cases h2 : d < 167
  · rw [inputRemapM_gap1 sad α β d (by omega) h2]; exact h
  by_cases h3 : d < 192
  · rw [inputRemapM_fireworks sad α β d (by omega) h3]
    have := cardPerm_lt α (d - 167)
    omega
  by_cases h4 : d < 203
  · rw [inputRemapM_gap2 sad α β d (by omega) h4]; exact h
  by_cases h5 : d < 253
  · rw [inputRemapM_discards sad α β d (by omega) h5]
    have := discardsPerm_lt α (d - 203)
    omega
  by_cases h6 : d < 261
  · rw [inputRemapM_gap3 sad α β d (by omega) h6]; exact h
  by_cases h7 : d < 266
  · rw [inputRemapM_whichColour sad α β d (by omega) h7]
    have := singleColour_lt β (d - 261)
    omega
  by_cases h8 : d < 281
  · rw [inputRemapM_gap4 sad α β d (by omega) h8]; exact h
  by_cases h9 : d < 306
  · rw [inputRemapM_lastCard sad α β d (by omega) h9]
    have := cardPerm_lt α (d - 281)
    omega
  by_cases h10 : d < 308
  · rw [inputRemapM_gap5 sad α β d (by omega) h10]; exact h
  by_cases h11 : d < 658
  · rw [inputRemapM_v0 sad α β d (by omega) h11]
    have := v0Remap_lt α β (d - 308) (by omega)
    omega
  cases sad with
  | false =>
    rw [inputRemapM_tail_nonsad α β d (by omega)]; exact h
  | true =>
    have hdim713 : inDim true = 713 := rfl
    by_cases h12 : d < 666
    · rw [inputRemapM_gap6 α β d (by omega) h12]; exact h
    by_cases h13 : d < 671
    · rw [inputRemapM_sadColour α β d (by omega) h13]
      have := singleColour_lt β (d - 666)
      omega
    by_cases h14 : d < 686
    · rw [inputRemapM_gap7 α β d (by omega) h14]; exact h
    by_cases h15 : d < 711
    · rw [inputRemapM_sadCard α β d (by omega) h15]
      have := cardPerm_lt α (d - 686)
      omega
    rw [inputRemapM_gap8 α β d (by omega)]; exact h

theorem inputRemapM_rowType (sad : Bool) (d : ℕ) :
    (∀ α β : Perm (Fin 5), inputRemapM sad α β d = inputRemapM sad α 1 d) ∨
    (∀ α β : Perm (Fin 5), inputRemapM sad α β d = inputRemapM sad 1 β d) := by
  by_cases h1 : d < 125
  · left
    intro α β
    rw [inputRemapM_hand sad α β d h1, inputRemapM_hand sad α 1 d h1]
  by_cases h2 : d < 167
  · left
    intro α β
    rw [inputRemapM_gap1 sad α β d (by omega) h2, inputRemapM_gap1 sad α 1 d (by omega) h2]
  by_cases h3 : d < 192
  · left
    intro α β
    rw [inputRemapM_fireworks sad α β d (by omega) h3,
      inputRemapM_fireworks sad α 1 d (by omega) h3]
  by_cases h4 : d < 203
  · left
    intro α β
    rw [inputRemapM_gap2 sad α β d (by omega) h4, inputRemapM_gap2 sad α 1 d (by omega) h4]
  by_cases h5 : d < 253
  · left
    intro α β
    rw [inputRemapM_discards sad α β d (by omega) h5,
      inputRemapM_discards sad α 1 d (by omega) h5]
  by_cases h6 : d < 261
  · left
    intro α β
    rw [inputRemapM_gap3 sad α β d (by omega) h6, inputRemapM_gap3 sad α 1 d (by omega) h6]
  by_cases h7 : d < 266
  · right
    intro α β
    rw [inputRemapM_whichColour sad α β d (by omega) h7,
      inputRemapM_whichColour sad 1 β d (by omega) h7]
  by_cases h8 : d < 281
  · left
    intro α β
    rw [inputRemapM_gap4 sad α β d (by omega) h8, inputRemapM_gap4 sad α 1 d (by omega) h8]
  by_cases h9 : d < 306
  · left
    intro α β
    rw [inputRemapM_lastCard sad α β d (by omega) h9,
      inputRemapM_lastCard sad α 1 d (by omega) h9]
  by_cases h10 : d < 308
  · left
    intro α β
    rw [inputRemapM_gap5 sad α β d (by omega) h10, inputRemapM_gap5 sad α 1 d (by omega) h10]
  by_cases h11 : d < 658
  · by_cases hs1 : (d - 308) % 35 < 25
    · left
      intro α β
      rw [inputRemapM_v0 sad α β d (by omega) h11, inputRemapM_v0 sad α 1 d (by omega) h11,
        v0Remap_eval_card α β (d - 308) hs1, v0Remap_eval_card α 1 (d - 308) hs1]
    by_cases hs2 : (d - 308) % 35 < 30
    · right
      intro α β
      rw [inputRemapM_v0 sad α β d (by omega) h11, inputRemapM_v0 sad 1 β d (by omega) h11,
        v0Remap_eval_single α β (d - 308) (by omega) hs2,
        v0Remap_eval_single 1 β (d - 308) (by omega) hs2]
    left
    intro α β
    rw [inputRemapM_v0 sad α β d (by omega) h11, inputRemapM_v0 sad α 1 d (by omega) h11,
      v0Remap_eval_id α β (d - 308) (by omega), v0Remap_eval_id α 1 (d - 308) (by omega)]
  cases sad with
  | false =>
    left
    intro α β
    rw [inputRemapM_tail_nonsad α β d (by omega), inputRemapM_tail_nonsad α 1 d (by omega)]
  | true =>
    by_cases h12 : d < 666
    · left
      intro α β
      rw [inputRemapM_gap6 α β d (by omega) h12, inputRemapM_gap6 α 1 d (by omega) h12]
    by_cases h13 : d < 671
    · right
      intro α β
      rw [inputRemapM_sadColour α β d (by omega) h13, inputRemapM_sadColour 1 β d (by omega) h13]
    by_cases h14 : d < 686
    · left
      intro α β
      rw [inputRemapM_gap7 α β d (by omega) h14, inputRemapM_gap7 α 1 d (by omega) h14]
    by_cases h15 : d < 711
    · left
      intro α β
      rw [inputRemapM_sadCard α β d (by omega) h15, inputRemapM_sadCard α 1 d (by omega) h15]
    left
    intro α β
    rw [inputRemapM_gap8 α β d (by omega), inputRemapM_gap8 α 1 d (by omega)]

/-! ## Matrix-level facts about the operators -/

theorem matrixOfRemap_mul {n : ℕ} (p1 p2 : ℕ → ℕ) (h : ∀ d, d < n → p1 d < n) :
    matrixOfRemap n p1 * matrixOfRemap n p2 = matrixOfRemap n (fun d => p2 (p1 d)) := by
  ext d s
  rw [Matrix.mul_apply, Finset.sum_eq_single (⟨p1 d.val, h d.val d.isLt⟩ : Fin n)]
  · simp [matrixOfRemap]
  · intro k _ hk
    have hne : p1 d.val ≠ k.val := by
      intro he
      exact hk (Fin.ext he.symm)
    simp [matrixOfRemap, hne]
  · intro hmem
    exact absurd (Finset.mem_univ _) hmem

theorem matrixOfRemap_id {n : ℕ} (p : ℕ → ℕ) (h : ∀ d, d < n → p d = d) :
    matrixOfRemap n p = 1 := by
  ext d s
  simp [matrixOfRemap, Matrix.one_apply, h d.val d.isLt, Fin.ext_iff]

theorem inputPermM_mul (sad : Bool) (α β γ δ : Perm (Fin 5)) :
    inputPermM sad α β * inputPermM sad γ δ = inputPermM sad (α * γ) (δ * β) := by
  unfold inputPermM
  rw [matrixOfRemap_mul _ _ (fun d hd => inputRemapM_lt sad α β d hd)]
  rw [show (fun d => inputRemapM sad γ δ (inputRemapM sad α β d)) =
    inputRemapM sad (α * γ) (δ * β) from funext (inputRemapM_comp sad α β γ δ)]

theorem inputPerm_eq_inputPermM (sad : Bool) (σ : Perm (Fin 5)) :
    inputPerm sad σ = inputPermM sad σ σ := rfl

theorem inputPerm_one (sad : Bool) : inputPerm sad 1 = 1 := by
  unfold inputPerm inputRemap
  exact matrixOfRemap_id _ (fun d _ => inputRemapM_one sad d)

theorem outRemap_eval_in (σ : Perm (Fin 5)) (d : ℕ) (h1 : 10 ≤ d) (h2 : d < 15) :
    outRemap σ d = 10 + singleColour σ (d - 10) := by
  unfold outRemap
  rw [if_pos ⟨h1, h2⟩]

theorem outRemap_eval_out (σ : Perm (Fin 5)) (d : ℕ) (h : ¬(10 ≤ d ∧ d < 15)) :
    outRemap σ d = d := by
  unfold outRemap
  rw [if_neg h]

theorem outRemap_lt (σ : Perm (Fin 5)) (d : ℕ) (h : d < 21) : outRemap σ d < 21 := by
  by_cases hc : 10 ≤ d ∧ d < 15
  · rw [outRemap_eval_in σ d hc.1 hc.2]
    have := singleColour_lt σ (d - 10)
    omega
  · rw [outRemap_eval_out σ d hc]
    exact h

theorem outRemap_comp (α γ : Perm (Fin 5)) (d : ℕ) :
    outRemap γ (outRemap α d) = outRemap (γ * α) d := by
  by_cases hc : 10 ≤ d ∧ d < 15
  · have hsc := singleColour_lt α (d - 10)
    rw [outRemap_eval_in α d hc.1 hc.2, outRemap_eval_in γ _ (by omega) (by omega),
      outRemap_eval_in (γ * α) d hc.1 hc.2, Nat.add_sub_cancel_left, singleColour_comp]
  · rw [outRemap_eval_out α d hc, outRemap_eval_out γ d hc, outRemap_eval_out (γ * α) d hc]

theorem outRemap_one (d : ℕ) : outRemap 1 d = d := by
  by_cases hc : 10 ≤ d ∧ d < 15
  · rw [outRemap_eval_in 1 d hc.1 hc.2, singleColour_one (d - 10) (by omega)]
    omega
  · exact outRemap_eval_out 1 d hc

theorem outputPerm_mul (α γ : Perm (Fin 5)) :
    outputPerm α * outputPerm γ = outputPerm (γ * α) := by
  unfold outputPerm
  rw [matrixOfRemap_mul _ _ (fun d hd => outRemap_lt α d hd)]
  rw [show (fun d => outRemap γ (outRemap α d)) = outRemap (γ * α) from
    funext (outRemap_comp α γ)]

theorem outputPerm_one : outputPerm 1 = 1 := by
  unfold outputPerm
  exact matrixOfRemap_id _ (fun d _ => outRemap_one d)

/-! ## Invariance of the full-group operator sums -/

theorem sum_inputPerm_mul (sad : Bool) (g : Perm (Fin 5)) :
    (∑ τ : Perm (Fin 5), inputPerm sad τ) * inputPerm sad g =
      ∑ τ : Perm (Fin 5), inputPerm sad τ := by
  rw [Matrix.sum_mul]
  have hprod : ∀ τ : Perm (Fin 5),
      inputPerm sad τ * inputPerm sad g = inputPermM sad (τ * g) (g * τ) :=
    fun τ => inputPermM_mul sad τ τ g g
  rw [Finset.sum_congr rfl fun τ _ => hprod τ]
  ext d s
  rw [Matrix.sum_apply, Matrix.sum_apply]
  rcases inputRemapM_rowType sad d.val with hL | hR
  · have e1 : ∀ τ : Perm (Fin 5), inputPermM sad (τ * g) (g * τ) d s =
        (if inputRemapM sad (τ * g) 1 d.val = s.val then (1 : ℚ) else 0) := by
      intro τ
      unfold inputPermM matrixOfRemap
      simp only [Matrix.of_apply, hL (τ * g) (g * τ)]
    have e2 : ∀ τ : Perm (Fin 5), inputPerm sad τ d s =
        (if inputRemapM sad τ 1 d.val = s.val then (1 : ℚ) else 0) := by
      intro τ
      unfold inputPerm inputRemap matrixOfRemap
      simp only [Matrix.of_apply, hL τ τ]
    rw [Finset.sum_congr rfl fun τ _ => e1 τ, Finset.sum_congr rfl fun τ _ => e2 τ]
    simpa only [Equiv.coe_mulRight] using
      Equiv.sum_comp (Equiv.mulRight g)
        (fun ρ => if inputRemapM sad ρ 1 d.val = s.val then (1 : ℚ) else 0)
  · have e1 : ∀ τ : Perm (Fin 5), inputPermM sad (τ * g) (g * τ) d s =
        (if inputRemapM sad 1 (g * τ) d.val = s.val then (1 : ℚ) else 0) := by
      intro τ
      unfold inputPermM matrixOfRemap
      simp only [Matrix.of_apply, hR (τ * g) (g * τ)]
    have e2 : ∀ τ : Perm (Fin 5), inputPerm sad τ d s =
        (if inputRemapM sad 1 τ d.val = s.val then (1 : ℚ) else 0) := by
      intro τ
      unfold inputPerm inputRemap matrixOfRemap
      simp only [Matrix.of_apply, hR τ τ]
    rw [Finset.sum_congr rfl fun τ _ => e1 τ, Finset.sum_congr rfl fun τ _ => e2 τ]
    simpa only [Equiv.coe_mulLeft] using
      Equiv.sum_comp (Equiv.mulLeft g)
        (fun ρ => if inputRemapM sad 1 ρ d.val = s.val then (1 : ℚ) else 0)

theorem outputPerm_mul_sum (g : Perm (Fin 5)) :
    outputPerm g * (∑ τ : Perm (Fin 5), outputPerm τ) =
      ∑ τ : Perm (Fin 5), outputPerm τ := by
  rw [Matrix.mul_sum]
  rw [Finset.sum_congr rfl fun τ _ => outputPerm_mul g τ]
  simpa only [Equiv.coe_mulRight] using
    Equiv.sum_comp (Equiv.mulRight g) (fun ρ => outputPerm ρ)

theorem sum_vecMul_eq {ι : Type} (s : Finset ι) {m n : ℕ} (w : ι → Fin m → ℚ)
    (M : Matrix (Fin m) (Fin n) ℚ) :
    Matrix.vecMul (∑ i ∈ s, w i) M = ∑ i ∈ s, Matrix.vecMul (w i) M := by
  ext j
  simp only [Matrix.vecMul, Matrix.dotProduct, Finset.sum_apply, Finset.sum_mul]
  rw [Finset.sum_comm]

/-! ## The cyclic enumeration -/

theorem c1_pow_five : c1 ^ 5 = 1 := by decide

theorem c1_pow_mod (n : ℕ) : c1 ^ (n % 5) = c1 ^ n := by
  conv_rhs => rw [← Nat.div_add_mod n 5]
  rw [pow_add, pow_mul, c1_pow_five, one_pow, one_mul]

theorem cyc_mul (k j : Fin 5) : cyc k * cyc j = cyc (k + j) := by
  unfold cyc
  rw [← pow_add, show ((k + j : Fin 5) : ℕ) = (k.val + j.val) % 5 from Fin.val_add k j]
  exact (c1_pow_mod (k.val + j.val)).symm

theorem cyc_comm (k j : Fin 5) : cyc k * cyc j = cyc j * cyc k := by
  rw [cyc_mul, cyc_mul, add_comm]

theorem mem_cyclicSymmetries_iff {g : Perm (Fin 5)} :
    g ∈ cyclicSymmetries ↔ ∃ k : Fin 5, g = cyc k := by
  unfold cyclicSymmetries cyc
  constructor
  · intro hg
    rcases List.mem_map.mp hg with ⟨k, hk, rfl⟩
    exact ⟨⟨k, List.mem_range.mp hk⟩, rfl⟩
  · rintro ⟨k, rfl⟩
    exact List.mem_map.mpr ⟨k.val, List.mem_range.mpr k.isLt, rfl⟩

theorem sum_mulVec_eq {ι : Type} (s : Finset ι) {m n : ℕ} (M : ι → Matrix (Fin m) (Fin n) ℚ)
    (v : Fin n → ℚ) :
    (∑ i ∈ s, M i).mulVec v = ∑ i ∈ s, (M i).mulVec v := by
  ext j
  simp only [Matrix.mulVec, Matrix.dotProduct, Finset.sum_apply, Matrix.sum_apply,
    Finset.sum_mul]
  rw [Finset.sum_comm]

/-! ## Claim C1: homomorphism property of the operator builder -/

/-- C1 (counterexample): the claim fails as stated.  The transpositions
(0 1) and (1 2) both occur in the symmetric group-type enumeration (the one
`EquivariantProjection` always uses and `net.py`'s symmetric branch builds),
yet the operator built for their composite differs from the product of their
operators: the colour-major fields compose one way round and the
single-colour one-hot fields the other, so the two matrices differ in the
which-colour-hinted row 261. -/
theorem C1_operator_homomorphism_cex :
    Equiv.swap (0 : Fin 5) 1 ∈ symmetricSymmetries ∧
    Equiv.swap (1 : Fin 5) 2 ∈ symmetricSymmetries ∧
    inputPerm false (Equiv.swap (0 : Fin 5) 1 * Equiv.swap (1 : Fin 5) 2) ≠
      inputPerm false (Equiv.swap (0 : Fin 5) 1) * inputPerm false (Equiv.swap (1 : Fin 5) 2) := by
  refine ⟨?_, ?_, ?_⟩
  · exact mem_permsOfList_of_mem fun x _ => List.mem_finRange x
  · exact mem_permsOfList_of_mem fun x _ => List.mem_finRange x
  · intro hEq
    rw [inputPerm_eq_inputPermM, inputPerm_eq_inputPermM, inputPerm_eq_inputPermM,
      inputPermM_mul] at hEq
    have h1 : inputPermM false (Equiv.swap (0 : Fin 5) 1 * Equiv.swap (1 : Fin 5) 2)
        (Equiv.swap (0 : Fin 5) 1 * Equiv.swap (1 : Fin 5) 2)
        (⟨261, by decide⟩ : Fin (inDim false)) (⟨262, by decide⟩ : Fin (inDim false)) = 1 := by
      decide
    have h2 : inputPermM false (Equiv.swap (0 : Fin 5) 1 * Equiv.swap (1 : Fin 5) 2)
        (Equiv.swap (1 : Fin 5) 2 * Equiv.swap (0 : Fin 5) 1)
        (⟨261, by decide⟩ : Fin (inDim false)) (⟨262, by decide⟩ : Fin (inDim false)) = 0 := by
      decide
    rw [hEq, h2] at h1
    exact zero_ne_one h1

/-- C1 (amended): the builder sends the identity permutation to the identity
matrix for every layout, and it is multiplicative on every pair of commuting
permutations — in particular on every pair drawn from the cyclic enumeration,
the group type the equivariant networks are hardcoded to, whose elements all
commute.  (The counterexample shows multiplicativity fails for the
non-commuting pairs present in the dihedral and symmetric enumerations.) -/
theorem C1_operator_homomorphism_amended (sad : Bool) (σ τ : Perm (Fin 5))
    (hcomm : σ * τ = τ * σ) :
    inputPerm sad 1 = 1 ∧ outputPerm 1 = 1 ∧
    inputPerm sad (σ * τ) = inputPerm sad σ * inputPerm sad τ ∧
    outputPerm (σ * τ) = outputPerm σ * outputPerm τ ∧
    ∀ g1 ∈ cyclicSymmetries, ∀ g2 ∈ cyclicSymmetries, g1 * g2 = g2 * g1 := by
  refine ⟨inputPerm_one sad, outputPerm_one, ?_, ?_, ?_⟩
  · calc inputPerm sad (σ * τ) = inputPermM sad (σ * τ) (σ * τ) := rfl
      _ = inputPermM sad (σ * τ) (τ * σ) := by rw [hcomm]
      _ = inputPermM sad σ σ * inputPermM sad τ τ := (inputPermM_mul sad σ σ τ τ).symm
      _ = inputPerm sad σ * inputPerm sad τ := rfl
  · calc outputPerm (σ * τ) = outputPerm (τ * σ) := by rw [hcomm]
      _ = outputPerm σ * outputPerm τ := (outputPerm_mul σ τ).symm
  · intro g1 hg1 g2 hg2
    rcases mem_cyclicSymmetries_iff.mp hg1 with ⟨k, rfl⟩
    rcases mem_cyclicSymmetries_iff.mp hg2 with ⟨j, rfl⟩
    exact cyc_comm k j

/-- C1 (witness): the amended statement instantiated at the commuting pair
`c1, c1²` from the cyclic enumeration. -/
theorem C1_operator_homomorphism_witness :
    c1 * c1 ^ 2 = c1 ^ 2 * c1 ∧
    (inputPerm false 1 = 1 ∧ outputPerm 1 = 1 ∧
      inputPerm false (c1 * c1 ^ 2) = inputPerm false c1 * inputPerm false (c1 ^ 2) ∧
      outputPerm (c1 * c1 ^ 2) = outputPerm c1 * outputPerm (c1 ^ 2) ∧
      ∀ g1 ∈ cyclicSymmetries, ∀ g2 ∈ cyclicSymmetries, g1 * g2 = g2 * g1) :=
  ⟨by decide, C1_operator_homomorphism_amended false c1 (c1 ^ 2) (by decide)⟩

/-! ## Claim C6: direction of the single-colour one-hot blocks -/

/-- C6 (counterexample): the claim predicts that destination `f+σ(i)` receives
source `f+i`, i.e. `remap (261 + σ(0)) = 261 + 0`.  For the enumerated cyclic
generator `c1` (with `c1(0) = 4`) the built operator instead has
`remap (261 + 4) = 264 ≠ 261`. -/
theorem C6_singleColour_cex :
    c1 ∈ cyclicSymmetries ∧ (c1 0).val = 4 ∧
    inputRemap false c1 (261 + (c1 0).val) = 264 ∧ 264 ≠ 261 + (0 : Fin 5).val := by
  refine ⟨?_, by decide, by decide, by decide⟩
  exact mem_cyclicSymmetries_iff.mpr ⟨1, by decide⟩

/-- C6 (amended): for every single-colour one-hot field at offset `f`
(which-colour hinted at 261, the ten directly-revealed-colour blocks at
`333+35t`, the greedy-action which-colour block at 666 in the wide layout, and
the hint-colour block at 10 of the output operator) and every colour
permutation, destination index `f+i` receives source index `f+σ(i)`: the
operator row `f+i` is the basis vector at column `f+σ(i)`. -/
theorem C6_singleColour_amended (sad : Bool) (σ : Perm (Fin 5)) (i : Fin 5) (t : Fin 10) :
    inputRemap sad σ (261 + i.val) = 261 + (σ i).val ∧
    inputRemap sad σ (333 + 35 * t.val + i.val) = 333 + 35 * t.val + (σ i).val ∧
    inputRemap true σ (666 + i.val) = 666 + (σ i).val ∧
    outRemap σ (10 + i.val) = 10 + (σ i).val := by
  have hi := i.isLt
  have ht := t.isLt
  refine ⟨?_, ?_, ?_, ?_⟩
  · unfold inputRemap
    rw [inputRemapM_whichColour sad σ σ _ (by omega) (by omega), Nat.add_sub_cancel_left]
    unfold singleColour
    rw [toF5_val]
  · unfold inputRemap
    rw [inputRemapM_v0 sad σ σ _ (by omega) (by omega)]
    have e : 333 + 35 * t.val + i.val - 308 = 35 * t.val + (25 + i.val) := by omega
    rw [e, v0Remap_eval_single σ σ _ (by omega) (by omega)]
    have e1 : (35 * t.val + (25 + i.val)) % 35 = 25 + i.val := by omega
    have e2 : (35 * t.val + (25 + i.val)) / 35 = t.val := by omega
    rw [e1, e2]
    have e3 : 25 + i.val - 25 = i.val := by omega
    rw [e3]
    unfold singleColour
    rw [toF5_val]
    have := (σ i).isLt
    omega
  · unfold inputRemap
    rw [inputRemapM_sadColour σ σ _ (by omega) (by omega), Nat.add_sub_cancel_left]
    unfold singleColour
    rw [toF5_val]
  · rw [outRemap_eval_in σ _ (by omega) (by omega), Nat.add_sub_cancel_left]
    unfold singleColour
    rw [toF5_val]

/-! ## Claim C2: projected weights are fixed points of the group action -/

/-- C2: after `EquivariantProjection.project`, the averaged weights are fixed
points of the group action, and the projected network is invariant under
relabeling: for every group element `g` of the symmetric enumeration, every
observation `x` and every (arbitrary, nonlinear) network body `φ` between the
projected first layer and the projected last layer, feeding the relabeled
observation `P_g·x` through the projected network and relabeling the output by
the same group element's output operator reproduces the output at `x`. -/
theorem C2_projection_fixed_point (sad : Bool) (h1 h2 : ℕ)
    (Wi : Matrix (Fin h1) (Fin (inDim sad)) ℚ) (Wo : Matrix (Fin 21) (Fin h2) ℚ)
    (b : Fin 21 → ℚ) (φ : (Fin h1 → ℚ) → Fin h2 → ℚ) (g : Perm (Fin 5))
    (x : Fin (inDim sad) → ℚ) :
    project_inputWeight sad h1 Wi * inputPerm sad g = project_inputWeight sad h1 Wi ∧
    outputPerm g * project_outputWeight h2 Wo = project_outputWeight h2 Wo ∧
    (outputPerm g).mulVec (project_outputBias b) = project_outputBias b ∧
    (outputPerm g).mulVec
        ((project_outputWeight h2 Wo).mulVec
            (φ ((project_inputWeight sad h1 Wi).mulVec ((inputPerm sad g).mulVec x))) +
          project_outputBias b) =
      (project_outputWeight h2 Wo).mulVec (φ ((project_inputWeight sad h1 Wi).mulVec x)) +
        project_outputBias b := by
  have hWi : project_inputWeight sad h1 Wi * inputPerm sad g = project_inputWeight sad h1 Wi := by
    unfold project_inputWeight
    rw [Matrix.smul_mul, ← Matrix.mul_sum, Matrix.mul_assoc, sum_inputPerm_mul]
  have hWo : outputPerm g * project_outputWeight h2 Wo = project_outputWeight h2 Wo := by
    unfold project_outputWeight
    rw [Matrix.mul_smul, ← Matrix.sum_mul, ← Matrix.mul_assoc, outputPerm_mul_sum]
  have hb : (outputPerm g).mulVec (project_outputBias b) = project_outputBias b := by
    unfold project_outputBias
    rw [Matrix.mulVec_smul, ← sum_mulVec_eq, Matrix.mulVec_mulVec, outputPerm_mul_sum]
  refine ⟨hWi, hWo, hb, ?_⟩
  have hx : (project_inputWeight sad h1 Wi).mulVec ((inputPerm sad g).mulVec x) =
      (project_inputWeight sad h1 Wi).mulVec x := by
    rw [Matrix.mulVec_mulVec, hWi]
  rw [hx, Matrix.mulVec_add, hb, Matrix.mulVec_mulVec, hWo]

/-! ## Claim C3: equivariance of the native equivariant act path -/

theorem inputPerm_cyc_mul (sad : Bool) (k j : Fin 5) :
    inputPerm sad (cyc k) * inputPerm sad (cyc j) = inputPerm sad (cyc (k + j)) := by
  rw [inputPerm_eq_inputPermM, inputPerm_eq_inputPermM, inputPermM_mul, cyc_comm j k,
    cyc_mul k j, ← inputPerm_eq_inputPermM]

/-- C3: for every group element `g` of the enumeration the equivariant LSTM
act path is built with (the cyclic group, hardcoded in the source), feeding
the batch relabeled by `g`'s input operator with the same hidden state and
then applying the module's own output-side correction for `g` (the output
operator built for the inverse permutation, applied on the right) reproduces
the advantage of the original batch, for every body `F` and hidden state. -/
theorem C3_equivariant_act (sad : Bool) {H : Type}
    (F : (Fin (inDim sad) → ℚ) → H → Fin 21 → ℚ) (g : Perm (Fin 5))
    (hg : g ∈ cyclicSymmetries) (x : Fin (inDim sad) → ℚ) (h : H) :
    Matrix.vecMul (equivAct sad F ((inputPerm sad g).mulVec x) h) (outputPerm g⁻¹) =
      equivAct sad F x h := by
  rcases mem_cyclicSymmetries_iff.mp hg with ⟨j, rfl⟩
  unfold equivAct
  have e1 : ∀ k : Fin 5,
      Matrix.vecMul
          (F ((inputPerm sad (cyc k)).mulVec ((inputPerm sad (cyc j)).mulVec x)) h)
          (outputPerm ((cyc k)⁻¹)) =
        Matrix.vecMul (F ((inputPerm sad (cyc (k + j))).mulVec x) h)
          (outputPerm ((cyc ((k + j) - j))⁻¹)) := by
    intro k
    rw [Matrix.mulVec_mulVec, inputPerm_cyc_mul, add_sub_cancel_right]
  rw [Finset.sum_congr rfl fun k _ => e1 k]
  have e3 : (∑ k : Fin 5,
      Matrix.vecMul (F ((inputPerm sad (cyc (k + j))).mulVec x) h)
        (outputPerm ((cyc ((k + j) - j))⁻¹))) =
      ∑ m : Fin 5,
        Matrix.vecMul (F ((inputPerm sad (cyc m)).mulVec x) h)
          (outputPerm ((cyc (m - j))⁻¹)) := by
    simpa only [Equiv.coe_addRight] using
      Equiv.sum_comp (Equiv.addRight j)
        (fun m => Matrix.vecMul (F ((inputPerm sad (cyc m)).mulVec x) h)
          (outputPerm ((cyc (m - j))⁻¹)))
  rw [e3]
  have e4 : ∀ m : Fin 5,
      outputPerm ((cyc (m - j))⁻¹) = outputPerm ((cyc m)⁻¹) * outputPerm (cyc j) := by
    intro m
    rw [outputPerm_mul]
    have h5 : cyc (m - j) * cyc j = cyc m := by rw [cyc_mul, sub_add_cancel]
    have h6 : cyc (m - j) = cyc m * (cyc j)⁻¹ := by rw [← h5, mul_inv_cancel_right]
    rw [h6, mul_inv_rev, inv_inv]
  have e5 : ∀ m : Fin 5,
      Matrix.vecMul (F ((inputPerm sad (cyc m)).mulVec x) h) (outputPerm ((cyc (m - j))⁻¹)) =
        Matrix.vecMul
          (Matrix.vecMul (F ((inputPerm sad (cyc m)).mulVec x) h) (outputPerm ((cyc m)⁻¹)))
          (outputPerm (cyc j)) := by
    intro m
    rw [e4 m, ← Matrix.vecMul_vecMul]
  rw [Finset.sum_congr rfl fun m _ => e5 m, ← sum_vecMul_eq, Matrix.vecMul_smul,
    Matrix.vecMul_vecMul, outputPerm_mul, inv_mul_cancel, outputPerm_one, Matrix.vecMul_one]

/-- C3 (witness): the equivariance statement instantiated at the enumerated
element `c1`, a constant body, a constant observation and a trivial hidden
state. -/
theorem C3_equivariant_act_witness :
    c1 ∈ cyclicSymmetries ∧
    Matrix.vecMul
        (equivAct false (fun _ _ => fun _ => 0)
          ((inputPerm false c1).mulVec (fun _ => 1)) ())
        (outputPerm (c1⁻¹)) =
      equivAct false (fun _ _ => fun _ => 0) (fun _ => 1) () :=
  ⟨mem_cyclicSymmetries_iff.mpr ⟨1, by decide⟩,
    C3_equivariant_act false (fun _ _ => fun _ => 0) c1
      (mem_cyclicSymmetries_iff.mpr ⟨1, by decide⟩) (fun _ => 1) ()⟩

/-! ## Claim C4: the greedy action is always legal -/

theorem argmaxIdx_spec {n : ℕ} (f : Fin (n + 1) → ℚ) (i : Fin (n + 1)) :
    f i ≤ f (argmaxIdx f) := by
  unfold argmaxIdx
  rcases hyp : List.argmax f (List.finRange (n + 1)) with _ | m
  · exfalso
    have hnil := List.argmax_eq_none.mp hyp
    have h2 : (List.finRange (n + 1)).length = n + 1 := List.length_finRange (n + 1)
    rw [hnil] at h2
    simp at h2
  · simp only [Option.getD_some]
    exact List.le_of_mem_argmax (List.mem_finRange i) (Option.mem_def.mpr hyp)

/-- C4: in the shared dueling-head selection `(1 + q - q.min()) * legal_move`
followed by `argmax` over the action axis (identical in every network
variant's forward), whenever the 0/1 legal mask has at least one legal entry
at a position, the selected greedy action is legal there; and if exactly one
action is legal, that very action is selected regardless of the q-values. -/
theorem C4_greedy_action_legal {S B A : ℕ}
    (q legal_move : Fin (S + 1) → Fin (B + 1) → Fin (A + 1) → ℚ)
    (h01 : ∀ s b i, legal_move s b i = 0 ∨ legal_move s b i = 1)
    (s : Fin (S + 1)) (b : Fin (B + 1)) (i0 : Fin (A + 1))
    (hi0 : legal_move s b i0 = 1) :
    legal_move s b (greedyAction q legal_move s b) = 1 ∧
    ((∀ j, legal_move s b j = 1 → j = i0) → greedyAction q legal_move s b = i0) := by
  have hmin : tensorMin q ≤ q s b i0 := by
    unfold tensorMin
    apply Finset.min'_le
    exact Finset.mem_image_of_mem _ (Finset.mem_univ (s, b, i0))
  have hval : 1 ≤ legalQ q legal_move s b i0 := by
    unfold legalQ
    rw [hi0, mul_one]
    linarith
  have hle : legalQ q legal_move s b i0 ≤
      legalQ q legal_move s b (greedyAction q legal_move s b) :=
    argmaxIdx_spec (fun i => legalQ q legal_move s b i) i0
  have hlegal : legal_move s b (greedyAction q legal_move s b) = 1 := by
    rcases h01 s b (greedyAction q legal_move s b) with h0 | h1
    · exfalso
      have hz : legalQ q legal_move s b (greedyAction q legal_move s b) = 0 := by
        unfold legalQ
        rw [h0, mul_zero]
      rw [hz] at hle
      linarith
    · exact h1
  exact ⟨hlegal, fun huniq => huniq _ hlegal⟩

/-- C4 (witness): one sequence step, one batch entry, two actions of which
only action 1 is legal while action 0 carries the larger raw advantage: the
greedy action is the legal action 1. -/
theorem C4_greedy_action_legal_witness :
    (fun _ _ i => if i = (0 : Fin 2) then (0 : ℚ) else 1) (0 : Fin 1) (0 : Fin 1)
        (@greedyAction 0 0 1 (fun _ _ i => if i = (0 : Fin 2) then (5 : ℚ) else 0)
          (fun _ _ i => if i = (0 : Fin 2) then (0 : ℚ) else 1) 0 0) = 1 ∧
    @greedyAction 0 0 1 (fun _ _ i => if i = (0 : Fin 2) then (5 : ℚ) else 0)
        (fun _ _ i => if i = (0 : Fin 2) then (0 : ℚ) else 1) 0 0 = (1 : Fin 2) :=
  ⟨(@C4_greedy_action_legal 0 0 1 (fun _ _ i => if i = (0 : Fin 2) then (5 : ℚ) else 0)
      (fun _ _ i => if i = (0 : Fin 2) then (0 : ℚ) else 1)
      (by decide) 0 0 1 (by decide)).1,
    (@C4_greedy_action_legal 0 0 1 (fun _ _ i => if i = (0 : Fin 2) then (5 : ℚ) else 0)
      (fun _ _ i => if i = (0 : Fin 2) then (0 : ℚ) else 1)
      (by decide) 0 0 1 (by decide)).2 (by decide)⟩

/-! ## Claim C5: the subtracted mean of the dueling head -/

/-- C5 (counterexample): with one legal action out of two, value 0 and masked
advantage 2 at the legal action, `duel` subtracts `2/2 = 1` (denominator: all
actions) whereas the claim's legal-only mean is `2/1 = 2`: the code yields
q = 1 at the legal action while the claim's formula yields 0. -/
theorem C5_duel_mean_cex :
    duel (fun _ _ => (0 : ℚ))
        (fun _ _ j => if j = (0 : Fin 2) then 2 else 0)
        (fun _ _ j => if j = (0 : Fin 2) then 1 else 0) (0 : Fin 1) (0 : Fin 1) (0 : Fin 2) = 1 ∧
    duelSpecLegalMean (fun _ _ => (0 : ℚ))
        (fun _ _ j => if j = (0 : Fin 2) then 2 else 0)
        (fun _ _ j => if j = (0 : Fin 2) then 1 else 0) (0 : Fin 1) (0 : Fin 1) (0 : Fin 2) = 0 := by
  constructor
  · unfold duel torchMean
    rw [Fin.sum_univ_two]
    norm_num
  · unfold duelSpecLegalMean
    rw [Fin.sum_univ_two]
    have hcard :
        (Finset.univ.filter fun j : Fin 2 => (if j = (0 : Fin 2) then (1 : ℚ) else 0) ≠ 0).card
          = 1 := by
      decide
    simp only []
    rw [hcard]
    norm_num

/-- C5 (amended): `duel` subtracts the mean of the masked advantages taken
over the whole action axis: illegal actions contribute zero to the numerator
but still count in the denominator, which is the total number of actions. -/
theorem C5_duel_mean_amended {S B A : ℕ} (v : Fin S → Fin B → ℚ)
    (a legal_move : Fin S → Fin B → Fin A → ℚ) (s : Fin S) (b : Fin B) (i : Fin A) :
    duel v a legal_move s b i =
      v s b + a s b i * legal_move s b i - (∑ j, a s b j * legal_move s b j) / (A : ℚ) :=
  rfl

/-! ## Claim C7: behaviour on unsupported group types -/

/-- C7 (counterexample): requesting the unsupported group type does not fail:
the if/elif chain has no error branch, so the construction silently builds the
full symmetric-group table of 120 permutations. -/
theorem C7_group_type_cex :
    badGroupType ≠ groupTypeCyclic ∧ badGroupType ≠ groupTypeDihedral ∧
    selectSymmetries badGroupType = symmetricSymmetries ∧
    (selectSymmetries badGroupType).length = 120 := by
  refine ⟨by decide, by decide, ?_, ?_⟩
  · unfold selectSymmetries
    rw [if_neg (by decide), if_neg (by decide)]
  · unfold selectSymmetries
    rw [if_neg (by decide), if_neg (by decide)]
    unfold symmetricSymmetries
    rw [length_permsOfList, List.length_finRange]
    decide

/-- C7 (amended): the group-type selection is total and never raises: the
`group_type` attribute is hardcoded to "cyclic" in the source, and any string
other than "cyclic" and "dihedral" falls through to the symmetric-group
enumeration of 120 permutations, building a model rather than failing. -/
theorem C7_group_type_amended (group_type : String) (hc : group_type ≠ groupTypeCyclic)
    (hd : group_type ≠ groupTypeDihedral) :
    selectSymmetries group_type = symmetricSymmetries ∧
    (selectSymmetries group_type).length = 120 := by
  constructor
  · unfold selectSymmetries
    rw [if_neg hc, if_neg hd]
  · unfold selectSymmetries
    rw [if_neg hc, if_neg hd]
    unfold symmetricSymmetries
    rw [length_permsOfList, List.length_finRange]
    decide

/-- C7 (witness): the amended statement at the concrete unsupported string. -/
theorem C7_group_type_witness :
    badGroupType ≠ groupTypeCyclic ∧ badGroupType ≠ groupTypeDihedral ∧
    (selectSymmetries badGroupType = symmetricSymmetries ∧
      (selectSymmetries badGroupType).length = 120) :=
  ⟨by decide, by decide, C7_group_type_amended badGroupType (by decide) (by decide)⟩

/-! ## Claim C8: the hardcoded sequence length 80 -/

/-- C8: for a nonempty batch and nonzero feature width, the reshape of the
batched equivariant forward (hardcoded first dimension 80) is valid exactly
when the sequence length is 80 — in particular the 2-D one-step inputs the
entry assertion admits (unsqueezed to sequence length 1) always fail it —
while the reshape on the single-step act path carries no such constraint. -/
theorem C8_forward_reshape (seq batchsize dIn : ℕ) (hb : 0 < batchsize) (hd : 0 < dIn) :
    (forwardReshapeValid seq batchsize dIn ↔ seq = 80) ∧
    ¬ forwardReshapeValid 1 batchsize dIn ∧
    actReshapeValid batchsize dIn := by
  have hiff : ∀ s : ℕ, forwardReshapeValid s batchsize dIn ↔ s = 80 := by
    intro s
    unfold forwardReshapeValid
    constructor
    · intro h
      have e : 80 * ((batchsize * 5) * dIn) = 80 * (batchsize * (5 * dIn)) := by ring
      rw [e] at h
      have hpos : 0 < batchsize * (5 * dIn) := by positivity
      exact Nat.eq_of_mul_eq_mul_right hpos h
    · rintro rfl
      ring
  refine ⟨hiff seq, ?_, ?_⟩
  · intro h
    have := (hiff 1).mp h
    omega
  · unfold actReshapeValid
    ring

/-- C8 (witness): with batch 1 and the 658-wide layout, sequence length 80 is
accepted and the one-step length 1 is rejected. -/
theorem C8_forward_reshape_witness :
    (forwardReshapeValid 80 1 658 ↔ (80 : ℕ) = 80) ∧
    ¬ forwardReshapeValid 1 1 658 ∧
    actReshapeValid 1 658 :=
  C8_forward_reshape 80 1 658 (by decide) (by decide)

/-! ## Claim C9: the auxiliary loss under an all-zero slot mask -/

/-- C9: when the hand-slot mask of a sample is entirely zero, the clamped
denominator equals the epsilon 1e-6 (in particular it is nonzero), and the
sample's per-step slot loss is exactly zero — no division of a nonzero
quantity by zero ever occurs. -/
theorem C9_aux_loss_empty_mask (target_p logq : Fin 5 → Fin 3 → ℚ)
    (hand_slot_mask : Fin 5 → ℚ) (hzero : ∀ s, hand_slot_mask s = 0) :
    cross_entropy_xent target_p logq hand_slot_mask = 0 ∧
    clampMin (∑ s : Fin 5, hand_slot_mask s) (1 / 1000000) = 1 / 1000000 := by
  have hsum : (∑ s : Fin 5, hand_slot_mask s) = 0 := by simp [hzero]
  constructor
  · unfold cross_entropy_xent
    have hnum : (∑ s : Fin 5, (∑ r : Fin 3, target_p s r * logq s r) * hand_slot_mask s) = 0 := by
      simp [hzero]
    rw [hnum]
    simp
  · unfold clampMin
    rw [hsum]
    norm_num

/-- C9 (witness): the statement at a concrete all-zero mask and nonzero
target and log-probability tensors. -/
theorem C9_aux_loss_empty_mask_witness :
    cross_entropy_xent (fun _ _ => 1) (fun _ _ => 2) (fun _ => 0) = 0 ∧
    clampMin (∑ s : Fin 5, (fun _ : Fin 5 => (0 : ℚ)) s) (1 / 1000000) = 1 / 1000000 :=
  C9_aux_loss_empty_mask (fun _ _ => 1) (fun _ _ => 2) (fun _ => 0) (fun _ => rfl)

/-! ## Claim C10: the 2-D path of FFWDNet.forward never returns -/

theorem linearOutShape_length (features : ℕ) (sh : List ℕ) (h : sh.length ≠ 0) :
    (linearOutShape features sh).length = sh.length := by
  unfold linearOutShape
  rw [List.length_append, List.length_dropLast, List.length_singleton]
  omega

/-- C10: `FFWDNet.forward`'s entry assertion accepts rank-2 inputs, but for
every such input (and every legal-move shape) the call then fails one of
`duel`'s assertions before `q` is computed: the advantage tensor stays rank 2
through the linear layers, so either it differs in shape from `legal_move` or
`legal_move` is not rank 3.  The 2-D path can never return. -/
theorem C10_ffwd_2d_never_returns (hidDim outDim : ℕ) (privShape legalShape : List ℕ)
    (h2 : privShape.length = 2) :
    (privShape.length = 3 ∨ privShape.length = 2) ∧
    ¬ ffwdForwardRuns hidDim outDim privShape legalShape := by
  refine ⟨Or.inr h2, ?_⟩
  rintro ⟨-, haeq, hlen⟩
  have l1 : (linearOutShape hidDim privShape).length = 2 := by
    rw [linearOutShape_length hidDim privShape (by omega)]
    exact h2
  have l2 : (linearOutShape hidDim (linearOutShape hidDim privShape)).length = 2 := by
    rw [linearOutShape_length hidDim _ (by omega)]
    exact l1
  have l3 : (linearOutShape hidDim
      (linearOutShape hidDim (linearOutShape hidDim privShape))).length = 2 := by
    rw [linearOutShape_length hidDim _ (by omega)]
    exact l2
  have l4 : (linearOutShape outDim (linearOutShape hidDim
      (linearOutShape hidDim (linearOutShape hidDim privShape)))).length = 2 := by
    rw [linearOutShape_length outDim _ (by omega)]
    exact l3
  rw [← haeq] at hlen
  omega

/-- C10 (witness): a rank-2 private observation of shape [32, 658] with a
matching rank-2 legal-move shape passes the entry assertion and still fails. -/
theorem C10_ffwd_2d_never_returns_witness :
    (([32, 658] : List ℕ).length = 3 ∨ ([32, 658] : List ℕ).length = 2) ∧
    ¬ ffwdForwardRuns 512 21 [32, 658] [32, 21] :=
  C10_ffwd_2d_never_returns 512 21 [32, 658] [32, 21] (by decide)
